import Mathlib

/-!
Shallow embedding of `remove-dead-domains.py`: a two-phase liveness check
for a list of domains (DNS resolution against several resolvers, then a TCP
port probe for domains with mixed DNS results), together with proofs about
its classification policy.

Network effects are modelled by oracles: a DNS attempt oracle per
(domain, server) pair, and a TCP connection oracle per (address, port) pair.
Python truthiness of `Optional[str]` values (used by `any`, `all` and
`filter(None, ...)` in the script) is modelled explicitly by `truthy`.
-/

namespace RemoveDeadDomains

/-- The configured DNS server groups (pairs of addresses), from the script header. -/
def DNS_SERVERS : List (String × String) :=
  [("8.8.8.8", "8.8.4.4"),
   ("208.67.222.222", "208.67.220.220"),
   ("84.200.69.80", "84.200.70.40"),
   ("209.244.0.3", "209.244.0.4"),
   ("8.26.56.26", "8.20.247.20")]

/-- The configured web ports probed in phase 2. -/
def WEB_PORTS : List Nat := [80, 443]

/-- Per-server concurrency limit for DNS queries. -/
def MAX_CONCURRENT_REQUESTS_PER_DNS_SERVER : Nat := 10

/-- Maximum number of DNS query attempts per (domain, server) pair. -/
def MAX_DNS_ATTEMPTS : Nat := 10

/-- Python truthiness of an `Optional[str]`: `None` and the empty string are
falsy, any other string is truthy.  The script applies `any`, `all` and
`filter(None, ...)` to lists of such values. -/
def truthy : Option String → Bool
  | none => false
  | some s => !s.isEmpty

/-- Model of Python `any(ips)` on a domain resolution vector. -/
def anyR (ips : List (Option String)) : Bool := ips.any truthy

/-- Model of Python `all(ips)` on a domain resolution vector. -/
def allR (ips : List (Option String)) : Bool := ips.all truthy

/-- Outcome of one DNS query attempt inside `dns_resolve`: the awaited query
either times out, raises `aiodns.error.DNSError`, or returns a response
holding a list of address records (their `host` fields). -/
inductive AttemptOutcome
  | timeout
  | dnsError
  | response (records : List String)
deriving DecidableEq

/-- Loop of `dns_resolve`, driven by an oracle `att` giving the outcome of
each numbered attempt.  Returns the resolution result together with the
number of queries issued.  A timeout moves to the next attempt (the jitter
recomputation only affects timing); a DNS error returns `None` at once; a
response with no records hits `IndexError` and returns `None`; otherwise the
first record's host is returned. -/
def dns_resolve_go (att : Nat → AttemptOutcome) : Nat → Nat → Option String × Nat
  | _, 0 => (none, 0)
  | a, n + 1 =>
    match att a with
    | .timeout => ((dns_resolve_go att (a + 1) n).1, (dns_resolve_go att (a + 1) n).2 + 1)
    | .dnsError => (none, 1)
    | .response [] => (none, 1)
    | .response (h :: _) => (some h, 1)

/-- Model of `dns_resolve` for one (domain, server) pair: run the attempt
loop starting at attempt 1 with `MAX_DNS_ATTEMPTS` attempts available. -/
def dns_resolve (att : Nat → AttemptOutcome) : Option String × Nat :=
  dns_resolve_go att 1 MAX_DNS_ATTEMPTS

/-- Outcome of one TCP connection attempt in `has_tcp_port_open`: success,
`ConnectionRefusedError`, `asyncio.TimeoutError`, or some other `OSError`
carrying an errno. -/
inductive ConnectResult
  | success
  | connectionRefused
  | timedOut
  | osError (en : Int)
deriving DecidableEq

/-- The value of `errno.EHOSTUNREACH` on Linux. -/
def EHOSTUNREACH : Int := 113

/-- Model of `has_tcp_port_open` applied to the outcome of the connection
attempt: refusal and timeout yield `False`; an `OSError` whose errno is
`EHOSTUNREACH` yields `False`; any other `OSError` is re-raised (modelled by
`Except.error` carrying the errno); success yields `True`. -/
def has_tcp_port_open : ConnectResult → Except Int Bool
  | .success => .ok true
  | .connectionRefused => .ok false
  | .timedOut => .ok false
  | .osError en => if en = EHOSTUNREACH then .ok false else .error en

/-- Model of `next(filter(None, ips))`: the first truthy entry of the vector,
flattened to the address it holds; `none` when no entry is truthy (in the
script this case raises `StopIteration`). -/
def selectIp (ips : List (Option String)) : Option String :=
  ((ips.filter truthy).head?).join

/-- Errors that abort a run: the `StopIteration` of an empty
`filter(None, ips)` iterator, and a fatal (re-raised) TCP `OSError`. -/
inductive RunError
  | stopIteration
  | fatalTcp (en : Int)
deriving DecidableEq

/-- Sequence a fallible function over a list, stopping at the first error:
the model of launching a batch of coroutines and gathering their results
(`asyncio.gather` re-raises if any of them raised). -/
def exceptMap (f : α → Except ε β) : List α → Except ε (List β)
  | [] => .ok []
  | a :: l =>
    match f a with
    | .error e => .error e
    | .ok b =>
      match exceptMap f l with
      | .error e => .error e
      | .ok bs => .ok (b :: bs)

/-- State built by the phase-1 classification loop: the dead domains found so
far (`dead_domains`, insertion-ordered set) and the TCP-check candidates
(`tcp_check_domain_ips`, insertion-ordered dict from domain to vector). -/
structure Phase1State where
  dead1 : List String
  candidates : List (String × List (Option String))
deriving DecidableEq

/-- Insertion into a Python set, modelled on insertion-ordered lists. -/
def setInsert (s : List String) (x : String) : List String :=
  if x ∈ s then s else s ++ [x]

/-- Assignment `d[k] = v` on a Python dict, modelled on insertion-ordered
association lists: replace in place when the key exists, append otherwise. -/
def dictInsert (d : List (String × List (Option String))) (k : String)
    (v : List (Option String)) : List (String × List (Option String)) :=
  if d.any (fun kv => kv.1 == k) then
    d.map (fun kv => if kv.1 == k then (k, v) else kv)
  else d ++ [(k, v)]

/-- One iteration of the phase-1 loop over `zip(domains, dns_check_futures)`:
all resolutions falsy adds the domain to the dead set; a mix records the
domain as a TCP-check candidate; all truthy leaves the state unchanged. -/
def phase1Step (st : Phase1State) (dv : String × List (Option String)) : Phase1State :=
  if anyR dv.2 = false then { st with dead1 := setInsert st.dead1 dv.1 }
  else if allR dv.2 = false then { st with candidates := dictInsert st.candidates dv.1 dv.2 }
  else st

/-- The whole phase-1 classification loop. -/
def phase1 (l : List (String × List (Option String))) : Phase1State :=
  l.foldl phase1Step ⟨[], []⟩

/-- The three ways phase 1 can treat one domain's resolution vector,
mirroring the `if not any / elif not all / else` branches. -/
inductive Phase1Class
  | deadDNS
  | candidate
  | alive
deriving DecidableEq

/-- Branch selection of the phase-1 loop for one vector. -/
def phase1Classify (ips : List (Option String)) : Phase1Class :=
  if anyR ips = false then .deadDNS
  else if allR ips = false then .candidate
  else .alive

/-- Phase-2 probes for one candidate vector: take the first truthy address
(`StopIteration` if there is none) and probe each configured web port on it,
any fatal TCP error aborting the batch. -/
def probeCandidate (tcp : String → Nat → ConnectResult) (ips : List (Option String)) :
    Except RunError (List Bool) :=
  match selectIp ips with
  | none => .error .stopIteration
  | some ip =>
    exceptMap (fun port => (has_tcp_port_open (tcp ip port)).mapError RunError.fatalTcp)
      WEB_PORTS

/-- Phase 2: probe every candidate, gather all results, then keep the domains
none of whose probed ports was open (`if not any(status)`). -/
def phase2 (tcp : String → Nat → ConnectResult)
    (cands : List (String × List (Option String))) : Except RunError (List String) :=
  match exceptMap (fun dv => (probeCandidate tcp dv.2).map (fun st => (dv.1, st))) cands with
  | .error e => .error e
  | .ok results => .ok ((results.filter (fun r => !(r.2.any id))).map (fun r => r.1))

/-- The whole pipeline on the list of input lines `domains` and the list of
resolution vectors `vecs` (one per line, the results of the phase-1 DNS
futures).  On success, returns the rewritten file contents (surviving lines
in original order), the dead-domain set (as a duplicate-free list) and the
reported removal count `len(dead_domains)`. -/
def runPipeline (tcp : String → Nat → ConnectResult) (domains : List String)
    (vecs : List (List (Option String))) :
    Except RunError (List String × List String × Nat) :=
  match phase2 tcp (phase1 (domains.zip vecs)).candidates with
  | .error e => .error e
  | .ok dead2 =>
    let dead := dead2.foldl setInsert (phase1 (domains.zip vecs)).dead1
    .ok (domains.filter (fun d => !(decide (d ∈ dead))), dead, dead.length)

/-- Contents of the list file after the run: rewritten only when the run
succeeded, left as the original lines when the run aborted with an error. -/
def runAndWrite (tcp : String → Nat → ConnectResult) (domains : List String)
    (vecs : List (List (Option String))) : List String :=
  match runPipeline tcp domains vecs with
  | .error _ => domains
  | .ok r => r.1

/-- The dead domains of phase 1 (`dead_domains` right after the first loop). -/
def deadViaDNS (domains : List String) (vecs : List (List (Option String))) : List String :=
  (phase1 (domains.zip vecs)).dead1

/-- The domains phase 2 adds to the dead set, when phase 2 succeeds. -/
def deadViaTCP (tcp : String → Nat → ConnectResult) (domains : List String)
    (vecs : List (List (Option String))) : Except RunError (List String) :=
  phase2 tcp (phase1 (domains.zip vecs)).candidates

/-- The domains classified alive: the input lines in neither dead class. -/
def aliveDomains (domains dead1 dead2 : List String) : List String :=
  domains.filter (fun d => !(decide (d ∈ dead1) || decide (d ∈ dead2)))

/-- The per-domain randomness drawn by `dns_resolve_domain`: the shuffled
order of the server groups and the choice of one address per group. -/
structure Rand where
  perm : List (String × String)
  choice : String × String → String

/-- A randomness draw is valid when the shuffle is a permutation of the
configured groups and each choice picks one of the group's two addresses. -/
def Rand.valid (r : Rand) : Prop :=
  r.perm.Perm DNS_SERVERS ∧ ∀ g ∈ r.perm, r.choice g = g.1 ∨ r.choice g = g.2

/-- Model of `dns_resolve_domain` with the network abstracted by a resolution
oracle `resolve` (the outcome of `dns_resolve` for a (domain, server) pair)
and the randomness made explicit: one outcome per shuffled group, at the
chosen address. -/
def dns_resolve_domain (resolve : String → String → Option String) (r : Rand)
    (domain : String) : List (Option String) :=
  r.perm.map (fun g => resolve domain (r.choice g))

/-- The whole pipeline including the DNS phase, with one randomness draw per
input line. -/
def runFull (resolve : String → String → Option String)
    (tcp : String → Nat → ConnectResult) (rands : List Rand) (domains : List String) :
    Except RunError (List String × List String × Nat) :=
  runPipeline tcp domains
    ((domains.zip rands).map (fun dr => dns_resolve_domain resolve dr.2 dr.1))

/-- The dead-domain set a full run produced (empty when the run aborted). -/
def deadSetOf (r : Except RunError (List String × List String × Nat)) : List String :=
  match r with
  | .ok t => t.2.1
  | .error _ => []

/-! ### Concurrency gate model

`dns_resolve` wraps the awaited query in `async with sem`, where `sems` holds
one `asyncio.BoundedSemaphore(MAX_CONCURRENT_REQUESTS_PER_DNS_SERVER)` per
distinct server address.  We model the set of in-flight resolution attempts
as a transition system: a task acquires the gate of its server (possible only
when the gate's counter is positive) before its query is in flight, and
releases it when the query settles. -/

/-- What one resolution attempt is doing: not holding any gate, or holding
the gate of `server` with its query in flight. -/
inductive TaskPhase
  | idle
  | querying (server : String)
deriving DecidableEq

/-- Global state of the gate system: the phase of every task and the current
counter of every server's semaphore. -/
structure GateState where
  tasks : List TaskPhase
  sem : String → Nat

/-- Initial state for `n` tasks: nobody queries, every semaphore is at the
configured limit (a `defaultdict` creates each gate at the limit). -/
def initGate (n : Nat) : GateState :=
  ⟨List.replicate n .idle, fun _ => MAX_CONCURRENT_REQUESTS_PER_DNS_SERVER⟩

/-- Interleaving steps: `acquire` models `async with sem` succeeding (only
when the counter is positive) and the query going in flight; `release` models
the query settling (success, timeout or DNS error) and the gate being
released. -/
inductive GateStep : GateState → GateState → Prop
  | acquire (σ : GateState) (i : Nat) (s : String) (hi : i < σ.tasks.length)
      (hidle : σ.tasks.get ⟨i, hi⟩ = .idle) (hsem : 0 < σ.sem s) :
      GateStep σ ⟨σ.tasks.set i (.querying s), Function.update σ.sem s (σ.sem s - 1)⟩
  | release (σ : GateState) (i : Nat) (s : String) (hi : i < σ.tasks.length)
      (hq : σ.tasks.get ⟨i, hi⟩ = .querying s) :
      GateStep σ ⟨σ.tasks.set i .idle, Function.update σ.sem s (σ.sem s + 1)⟩

/-- Whether a task currently has a query in flight against server `s`. -/
def isQuerying (s : String) : TaskPhase → Bool
  | .idle => false
  | .querying t => t == s

/-- Number of queries currently in flight against server `s`. -/
def inFlight (σ : GateState) (s : String) : Nat :=
  σ.tasks.countP (isQuerying s)

/-- The states a run can be in: reachable from some initial state. -/
def GateReachable (σ : GateState) : Prop :=
  ∃ n, Relation.ReflTransGen GateStep (initGate n) σ

/-- The gate invariant: for every server, the in-flight queries and the
semaphore counter sum to the configured limit. -/
def gateInv (σ : GateState) : Prop :=
  ∀ s, inFlight σ s + σ.sem s = MAX_CONCURRENT_REQUESTS_PER_DNS_SERVER

/-! ### Mock network layers used for concrete runs -/

/-- A deterministic mock resolver whose outcome depends on which server of a
group is queried: only Google's primary address resolves anything. -/
def mockResolve (domain server : String) : Option String :=
  if server = "8.8.8.8" then some "1.2.3.4" else none

/-- Randomness that keeps the configured group order and always picks the
first address of each pair. -/
def randFst : Rand := ⟨DNS_SERVERS, Prod.fst⟩

/-- Randomness that keeps the configured group order and always picks the
second address of each pair. -/
def randSnd : Rand := ⟨DNS_SERVERS, Prod.snd⟩

/-- A deterministic mock resolver that is uniform across each group's two
addresses but resolves the domain to two distinct addresses on two groups:
`1.1.1.1` on the Google group and `2.2.2.2` on the OpenDNS group. -/
def mockResolveTwoAddrs (domain server : String) : Option String :=
  if server = "8.8.8.8" ∨ server = "8.8.4.4" then some "1.1.1.1"
  else if server = "208.67.222.222" ∨ server = "208.67.220.220" then some "2.2.2.2"
  else none

/-- A deterministic mock TCP layer where only `2.2.2.2` has open ports. -/
def mockTcpOnlySecond (ip : String) (port : Nat) : ConnectResult :=
  if ip = "2.2.2.2" then .success else .connectionRefused

/-- Randomness with the same address-choice function as `randFst` but a
different shuffle: the OpenDNS group is moved in front of the Google group. -/
def randShuf : Rand :=
  ⟨("208.67.222.222", "208.67.220.220") :: ("8.8.8.8", "8.8.4.4") ::
    [("84.200.69.80", "84.200.70.40"),
     ("209.244.0.3", "209.244.0.4"),
     ("8.26.56.26", "8.20.247.20")], Prod.fst⟩

/-- Relation between two candidate dicts that phase 2 cannot tell apart:
same keys in the same order, and vectors selecting the same probe address. -/
def CandRel : List (String × List (Option String)) →
    List (String × List (Option String)) → Prop :=
  List.Forall₂ (fun c1 c2 => c1.1 = c2.1 ∧ selectIp c1.2 = selectIp c2.2)

/-- Relation between two zipped (domain, vector) lists whose phase-1 and
phase-2 behaviour agree pointwise. -/
def ZipRel : List (String × List (Option String)) →
    List (String × List (Option String)) → Prop :=
  List.Forall₂ (fun p q => p.1 = q.1 ∧ anyR p.2 = anyR q.2 ∧ allR p.2 = allR q.2 ∧
    selectIp p.2 = selectIp q.2)

/-! ### Basic lemmas about truthiness and vector classification -/

lemma truthy_some_of_ne (s : String) (h : s ≠ "") : truthy (some s) = true := by
  have he : s.isEmpty = false := by
    cases he : s.isEmpty
    · rfl
    · exact absurd ((String.isEmpty_iff s).mp he) h
  simp [truthy, he]

lemma truthy_eq_isSome (o : Option String) (h : o ≠ some "") : truthy o = o.isSome := by
  cases o with
  | none => rfl
  | some s =>
    have hs : s ≠ "" := fun he => h (by rw [he])
    simp [truthy_some_of_ne s hs, Option.isSome]

lemma anyR_iff (ips : List (Option String)) :
    anyR ips = true ↔ ∃ o ∈ ips, truthy o = true := by
  simp [anyR, List.any_eq_true]

lemma allR_iff (ips : List (Option String)) :
    allR ips = true ↔ ∀ o ∈ ips, truthy o = true := by
  simp [allR, List.all_eq_true]

lemma selectIp_eq_none_iff (ips : List (Option String)) :
    selectIp ips = none ↔ anyR ips = false := by
  constructor
  · intro h
    by_contra hany
    have hany' : anyR ips = true := by
      cases hv : anyR ips
      · exact absurd hv hany
      · rfl
    obtain ⟨o, ho, hto⟩ := (anyR_iff ips).mp hany'
    have hmem : o ∈ ips.filter truthy := List.mem_filter.mpr ⟨ho, hto⟩
    cases hf : ips.filter truthy with
    | nil => rw [hf] at hmem; exact absurd hmem (List.not_mem_nil o)
    | cons hd tl =>
      have hhd : hd ∈ ips.filter truthy := by rw [hf]; exact List.mem_cons_self hd tl
      have hthd : truthy hd = true := (List.mem_filter.mp hhd).2
      cases hd with
      | none => simp [truthy] at hthd
      | some s =>
        rw [selectIp, hf] at h
        simp [List.head?, Option.join] at h
  · intro h
    have hnone : ∀ o ∈ ips, truthy o = false := by
      intro o ho
      cases ht : truthy o
      · rfl
      · exact absurd ((anyR_iff ips).mpr ⟨o, ho, ht⟩) (by rw [h]; exact fun hc => nomatch hc)
    have hf : ips.filter truthy = [] := List.filter_eq_nil_iff.mpr (by
      intro o ho
      rw [hnone o ho]
      exact fun hc => nomatch hc)
    rw [selectIp, hf]
    rfl

lemma selectIp_spec (ips : List (Option String)) (h : anyR ips = true) :
    ∃ ip pre post, selectIp ips = some ip ∧ ips = pre ++ some ip :: post ∧
      (∀ o ∈ pre, truthy o = false) ∧ truthy (some ip) = true := by
  induction ips with
  | nil => simp [anyR] at h
  | cons hd tl ih =>
    cases ht : truthy hd with
    | true =>
      cases hd with
      | none => simp [truthy] at ht
      | some s =>
        refine ⟨s, [], tl, ?_, rfl, by intro o ho; exact absurd ho (List.not_mem_nil o), ht⟩
        simp [selectIp, List.filter, ht, Option.join]
    | false =>
      have htl : anyR tl = true := by
        rcases (anyR_iff _).mp h with ⟨o, ho, hto⟩
        rcases List.mem_cons.mp ho with he | hm
        · rw [he, ht] at hto; exact absurd hto (by decide)
        · exact (anyR_iff _).mpr ⟨o, hm, hto⟩
      obtain ⟨ip, pre, post, hsel, hsplit, hpre, htruthy⟩ := ih htl
      refine ⟨ip, hd :: pre, post, ?_, by rw [hsplit]; rfl, ?_, htruthy⟩
      · rw [selectIp, List.filter_cons_of_neg (by rw [ht]; exact fun hc => nomatch hc)]
        exact hsel
      · intro o ho
        rcases List.mem_cons.mp ho with he | hm
        · rw [he]; exact ht
        · exact hpre o hm

lemma selectIp_from_vector (ips : List (Option String)) (ip : String)
    (h : selectIp ips = some ip) : some ip ∈ ips ∧ truthy (some ip) = true := by
  have hany : anyR ips = true := by
    cases ha : anyR ips
    · rw [(selectIp_eq_none_iff ips).mpr ha] at h; exact absurd h (by intro hc; exact nomatch hc)
    · rfl
  obtain ⟨ip2, pre, post, hsel, hsplit, _, htruthy⟩ := selectIp_spec ips hany
  have hip : ip2 = ip := by rw [hsel] at h; exact Option.some.inj h
  subst hip
  exact ⟨by rw [hsplit]; exact List.mem_append_right _ (List.mem_cons_self _ _), htruthy⟩

/-! ### Lemmas about the dns_resolve attempt loop -/

lemma dns_resolve_go_all_timeout (att : Nat → AttemptOutcome) :
    ∀ n a, (∀ b, att b = .timeout) → dns_resolve_go att a n = (none, n) := by
  intro n
  induction n with
  | zero => intro a _; rfl
  | succ m ih =>
    intro a h
    simp only [dns_resolve_go, h a, ih (a + 1) h]

lemma dns_resolve_go_settle (att : Nat → AttemptOutcome) :
    ∀ n a k, a ≤ k → k < a + n → (∀ b, a ≤ b → b < k → att b = .timeout) →
      (att k = .dnsError → dns_resolve_go att a n = (none, k - a + 1)) ∧
      (∀ rs, att k = .response rs → dns_resolve_go att a n = (rs.head?, k - a + 1)) := by
  intro n
  induction n with
  | zero => intro a k ha hk _; omega
  | succ m ih =>
    intro a k ha hk hpre
    rcases Nat.eq_or_lt_of_le ha with he | hlt
    · subst he
      constructor
      · intro herr
        simp only [dns_resolve_go, herr, Nat.sub_self]
      · intro rs hresp
        cases rs with
        | nil => simp only [dns_resolve_go, hresp, List.head?, Nat.sub_self]
        | cons x xs => simp only [dns_resolve_go, hresp, List.head?, Nat.sub_self]
    · have hta : att a = .timeout := hpre a (Nat.le_refl a) hlt
      have hih := ih (a + 1) k hlt (by omega) (fun b hb1 hb2 => hpre b (by omega) hb2)
      have harith : k - (a + 1) + 1 + 1 = k - a + 1 := by omega
      constructor
      · intro herr
        simp only [dns_resolve_go, hta, (hih.1 herr)]
        rw [harith]
      · intro rs hresp
        simp only [dns_resolve_go, hta, (hih.2 rs hresp)]
        rw [harith]

/-- Claim C5: `dns_resolve` retry policy.  A resolver whose every attempt
times out issues exactly `MAX_DNS_ATTEMPTS` (10) queries and returns
unresolved; if attempts `1, ..., k-1` time out and attempt `k` raises a DNS
protocol error, the result is unresolved after exactly `k` queries (no
further attempts); if attempt `k` instead returns a response, the result is
the first record's address (unresolved when the response has zero records),
again after exactly `k` queries. -/
theorem dns_resolve_retry_policy (att : Nat → AttemptOutcome) :
    ((∀ b, att b = .timeout) → dns_resolve att = (none, MAX_DNS_ATTEMPTS)) ∧
    (∀ k, 1 ≤ k → k ≤ MAX_DNS_ATTEMPTS → (∀ b, 1 ≤ b → b < k → att b = .timeout) →
      (att k = .dnsError → dns_resolve att = (none, k)) ∧
      (∀ rs, att k = .response rs → dns_resolve att = (rs.head?, k))) := by
  constructor
  · intro h
    exact dns_resolve_go_all_timeout att MAX_DNS_ATTEMPTS 1 h
  · intro k hk1 hk2 hpre
    have h := dns_resolve_go_settle att MAX_DNS_ATTEMPTS 1 k hk1
      (by simp [MAX_DNS_ATTEMPTS] at hk2 ⊢; omega) hpre
    have harith : k - 1 + 1 = k := by omega
    constructor
    · intro herr
      rw [dns_resolve, h.1 herr, harith]
    · intro rs hresp
      rw [dns_resolve, h.2 rs hresp, harith]

/-- Concrete instance of `dns_resolve_retry_policy`: an always-timing-out
resolver issues exactly 10 queries, and a first-attempt DNS error stops after
one query. -/
theorem dns_resolve_retry_policy_witness :
    dns_resolve (fun _ => .timeout) = (none, MAX_DNS_ATTEMPTS) ∧
    dns_resolve (fun _ => .dnsError) = (none, 1) := by
  constructor
  · exact (dns_resolve_retry_policy (fun _ => .timeout)).1 (fun _ => rfl)
  · exact (((dns_resolve_retry_policy (fun _ => .dnsError)).2 1 (Nat.le_refl 1)
      (by decide) (by intro b hb1 hb2; omega)).1) rfl

/-- Claim C3: error policy of the TCP reachability check.  `has_tcp_port_open`
returns `false` exactly for connection-refused, timeout, or the
host-unreachable `OSError`; an `OSError` with any other errno propagates
(terminating the run), and every propagated error is such an `OSError`. -/
theorem tcp_error_policy (c : ConnectResult) :
    (has_tcp_port_open c = .ok false ↔
      (c = .connectionRefused ∨ c = .timedOut ∨ c = .osError EHOSTUNREACH)) ∧
    (∀ en : Int, en ≠ EHOSTUNREACH → has_tcp_port_open (.osError en) = .error en) ∧
    (∀ e : Int, has_tcp_port_open c = .error e → c = .osError e ∧ e ≠ EHOSTUNREACH) := by
  refine ⟨?_, ?_, ?_⟩
  · cases c with
    | success => simp [has_tcp_port_open]
    | connectionRefused => simp [has_tcp_port_open]
    | timedOut => simp [has_tcp_port_open]
    | osError en =>
      by_cases he : en = EHOSTUNREACH
      · subst he; simp [has_tcp_port_open]
      · simp [has_tcp_port_open, he]
  · intro en hen
    simp [has_tcp_port_open, hen]
  · intro e h
    cases c with
    | success => exact absurd h (by simp [has_tcp_port_open])
    | connectionRefused => exact absurd h (by simp [has_tcp_port_open])
    | timedOut => exact absurd h (by simp [has_tcp_port_open])
    | osError en =>
      by_cases he : en = EHOSTUNREACH
      · subst he; exact absurd h (by simp [has_tcp_port_open])
      · rw [has_tcp_port_open, if_neg he] at h
        have : en = e := by injection h
        subst this
        exact ⟨rfl, he⟩

/-- Concrete instance of `tcp_error_policy`: an `OSError` with errno 104
(connection reset) propagates as a fatal error. -/
theorem tcp_error_policy_witness :
    has_tcp_port_open (.osError 104) = .error 104 :=
  (tcp_error_policy (.osError 104)).2.1 104 (by decide)

/-- Claim C9: selecting the remembered address for phase 2 never fails for a
TCP-check candidate.  Under the candidate precondition `any(ips)` (at least
one truthy entry) the iterator `filter(None, ips)` is non-empty, so
`next(filter(None, ips))` cannot raise `StopIteration`: the selection
produces an address. -/
theorem select_ip_never_fails (ips : List (Option String)) (h : anyR ips = true) :
    ips.filter truthy ≠ [] ∧ (selectIp ips).isSome = true := by
  obtain ⟨ip, pre, post, hsel, _, _, _⟩ := selectIp_spec ips h
  constructor
  · intro hf
    have : selectIp ips = none := by rw [selectIp, hf]; rfl
    rw [hsel] at this
    exact absurd this (by intro hc; exact nomatch hc)
  · rw [hsel]; rfl

/-- Concrete instance of `select_ip_never_fails` at a mixed vector. -/
theorem select_ip_never_fails_witness :
    (selectIp [none, some "203.0.113.5", none]).isSome = true :=
  (select_ip_never_fails [none, some "203.0.113.5", none] (by decide)).2

/-- Claim C1: phase-1 classification.  For a non-empty resolution vector whose
entries are never the empty-string address: if every entry is unresolved the
branch taken adds the domain to the dead set and does not touch the candidate
dict (so the domain is excluded from phase 2); if every entry is resolved the
loop body leaves the state unchanged (alive, no TCP probing); and the
TCP-candidate branch is taken exactly when the vector has at least one
resolved and at least one unresolved entry. -/
theorem phase1_classification (st : Phase1State) (d : String)
    (ips : List (Option String)) (hne : ips ≠ [])
    (haddr : ∀ o ∈ ips, o ≠ some "") :
    ((∀ o ∈ ips, o = none) →
      phase1Classify ips = .deadDNS ∧
      phase1Step st (d, ips) = { st with dead1 := setInsert st.dead1 d }) ∧
    ((∀ o ∈ ips, o.isSome = true) →
      phase1Classify ips = .alive ∧ phase1Step st (d, ips) = st) ∧
    (phase1Classify ips = .candidate ↔
      ((∃ o ∈ ips, o.isSome = true) ∧ (∃ o ∈ ips, o = none))) ∧
    (phase1Classify ips = .candidate →
      phase1Step st (d, ips) = { st with candidates := dictInsert st.candidates d ips }) := by
  have hts : ∀ o ∈ ips, truthy o = o.isSome := fun o ho => truthy_eq_isSome o (haddr o ho)
  refine ⟨?_, ?_, ?_, ?_⟩
  · intro hall
    have hany : anyR ips = false := by
      cases ha : anyR ips
      · rfl
      · obtain ⟨o, ho, hto⟩ := (anyR_iff ips).mp ha
        rw [hall o ho] at hto
        exact absurd hto (by decide)
    exact ⟨by rw [phase1Classify, if_pos hany], by rw [phase1Step, if_pos hany]⟩
  · intro hall
    have hallR : allR ips = true := (allR_iff ips).mpr (by
      intro o ho
      rw [hts o ho]
      exact hall o ho)
    have hany : anyR ips = true := by
      cases ips with
      | nil => exact absurd rfl hne
      | cons hd tl =>
        refine (anyR_iff _).mpr ⟨hd, List.mem_cons_self hd tl, ?_⟩
        rw [hts hd (List.mem_cons_self hd tl)]
        exact hall hd (List.mem_cons_self hd tl)
    constructor
    · rw [phase1Classify, if_neg (by rw [hany]; exact fun hc => nomatch hc),
        if_neg (by rw [hallR]; exact fun hc => nomatch hc)]
    · rw [phase1Step, if_neg (by rw [hany]; exact fun hc => nomatch hc),
        if_neg (by rw [hallR]; exact fun hc => nomatch hc)]
  · constructor
    · intro hc
      rw [phase1Classify] at hc
      by_cases hany : anyR ips = false
      · rw [if_pos hany] at hc; exact absurd hc (by intro hcc; exact nomatch hcc)
      · rw [if_neg hany] at hc
        by_cases hallc : allR ips = false
        · have hany' : anyR ips = true := by
            cases ha : anyR ips
            · exact absurd ha hany
            · rfl
          obtain ⟨o, ho, hto⟩ := (anyR_iff ips).mp hany'
          have hnall : ¬ ∀ o ∈ ips, truthy o = true := by
            intro hcontra
            rw [(allR_iff ips).mpr hcontra] at hallc
            exact absurd hallc (by decide)
          push_neg at hnall
          obtain ⟨o2, ho2, hto2⟩ := hnall
          refine ⟨⟨o, ho, by rw [← hts o ho]; exact hto⟩, ⟨o2, ho2, ?_⟩⟩
          cases o2 with
          | none => rfl
          | some s =>
            rw [hts _ ho2] at hto2
            exact absurd rfl hto2
        · rw [if_neg hallc] at hc
          exact absurd hc (by intro hcc; exact nomatch hcc)
    · rintro ⟨⟨o, ho, hso⟩, ⟨o2, ho2, hno2⟩⟩
      have hany : anyR ips = true := (anyR_iff ips).mpr ⟨o, ho, by rw [hts o ho]; exact hso⟩
      have hallc : allR ips = false := by
        cases ha : allR ips
        · rfl
        · have := (allR_iff ips).mp ha o2 ho2
          rw [hno2] at this
          exact absurd this (by decide)
      rw [phase1Classify, if_neg (by rw [hany]; exact fun hc => nomatch hc), if_pos hallc]
  · intro hc
    rw [phase1Classify] at hc
    by_cases hany : anyR ips = false
    · rw [if_pos hany] at hc; exact absurd hc (by intro hcc; exact nomatch hcc)
    · by_cases hallc : allR ips = false
      · rw [phase1Step, if_neg hany, if_pos hallc]
      · rw [if_neg hany, if_neg hallc] at hc
        exact absurd hc (by intro hcc; exact nomatch hcc)

/-- Concrete instance of `phase1_classification`: a fully dead vector takes
the dead branch and a mixed vector takes the candidate branch. -/
theorem phase1_classification_witness :
    phase1Classify [none, none] = .deadDNS ∧
    phase1Classify [some "1.2.3.4", none] = .candidate := by
  constructor
  · exact ((phase1_classification ⟨[], []⟩ "d" [none, none] (by decide)
      (by decide)).1 (by decide)).1
  · exact ((phase1_classification ⟨[], []⟩ "d" [some "1.2.3.4", none] (by decide)
      (by decide)).2.2.1).mpr (by decide)

/-! ### Lemmas about gathered batches of fallible operations -/

lemma exceptMap_ok_of_forall {α β ε : Type} (f : α → Except ε β) (g : α → β)
    (l : List α) (h : ∀ a ∈ l, f a = .ok (g a)) : exceptMap f l = .ok (l.map g) := by
  induction l with
  | nil => rfl
  | cons hd tl ih =>
    rw [exceptMap, h hd (List.mem_cons_self hd tl),
      ih (fun a ha => h a (List.mem_cons_of_mem hd ha))]
    rfl

lemma exceptMap_error_of_exists {α β ε : Type} (f : α → Except ε β) (l : List α)
    (h : ∃ a ∈ l, ∃ e, f a = .error e) : ∃ e, exceptMap f l = .error e := by
  induction l with
  | nil => obtain ⟨a, ha, _⟩ := h; exact absurd ha (List.not_mem_nil a)
  | cons hd tl ih =>
    obtain ⟨a, ha, e, he⟩ := h
    rcases List.mem_cons.mp ha with heq | hm
    · subst heq
      exact ⟨e, by rw [exceptMap, he]⟩
    · cases hf : f hd with
      | error e2 => exact ⟨e2, by rw [exceptMap, hf]⟩
      | ok b =>
        obtain ⟨e3, he3⟩ := ih ⟨a, hm, e, he⟩
        exact ⟨e3, by rw [exceptMap, hf, he3]⟩

lemma exceptMap_ok_forall₂ {α β ε : Type} (f : α → Except ε β) (l : List α)
    (ys : List β) (h : exceptMap f l = .ok ys) :
    List.Forall₂ (fun a b => f a = .ok b) l ys := by
  induction l generalizing ys with
  | nil =>
    rw [exceptMap] at h
    have : ys = [] := by injection h with h2; exact h2.symm
    subst this
    exact List.Forall₂.nil
  | cons hd tl ih =>
    rw [exceptMap] at h
    cases hf : f hd with
    | error e => rw [hf] at h; exact absurd h (by intro hc; exact nomatch hc)
    | ok b =>
      rw [hf] at h
      cases hrest : exceptMap f tl with
      | error e => rw [hrest] at h; exact absurd h (by intro hc; exact nomatch hc)
      | ok bs =>
        rw [hrest] at h
        have : b :: bs = ys := by injection h
        subst this
        exact List.Forall₂.cons hf (ih bs hrest)

lemma assoc_value_eq {α : Type} (l : List (String × α))
    (hnd : (l.map Prod.fst).Nodup) (d : String) (v1 v2 : α)
    (h1 : (d, v1) ∈ l) (h2 : (d, v2) ∈ l) : v1 = v2 := by
  induction l with
  | nil => exact absurd h1 (List.not_mem_nil _)
  | cons hd tl ih =>
    rw [List.map_cons, List.nodup_cons] at hnd
    rcases List.mem_cons.mp h1 with he1 | hm1 <;> rcases List.mem_cons.mp h2 with he2 | hm2
    · rw [← he1] at he2; injection he2 with _ hv; exact hv.symm
    · exfalso
      exact hnd.1 (by rw [← he1]; exact List.mem_map.mpr ⟨(d, v2), hm2, rfl⟩)
    · exfalso
      exact hnd.1 (by rw [← he2]; exact List.mem_map.mpr ⟨(d, v1), hm1, rfl⟩)
    · exact ih hnd.2 hm1 hm2

/-- Claim C2: phase-2 classification.  For a TCP-check candidate (under a
benign TCP oracle, so no probe is fatal), the probed address is the first
truthy entry of the vector in vector order, the probe batch runs once per
configured web port against that single address, and phase 2 adds the domain
to the dead set exactly when no probed port reports open. -/
theorem phase2_classification (tcp : String → Nat → ConnectResult)
    (tcpB : String → Nat → Bool)
    (hben : ∀ ip port, has_tcp_port_open (tcp ip port) = .ok (tcpB ip port))
    (cands : List (String × List (Option String)))
    (hnd : (cands.map Prod.fst).Nodup)
    (hall : ∀ c ∈ cands, anyR c.2 = true)
    (d : String) (ips : List (Option String)) (hmem : (d, ips) ∈ cands) :
    ∃ ip pre post dead2,
      selectIp ips = some ip ∧
      ips = pre ++ some ip :: post ∧ (∀ o ∈ pre, truthy o = false) ∧
      probeCandidate tcp ips = .ok (WEB_PORTS.map (tcpB ip)) ∧
      phase2 tcp cands = .ok dead2 ∧
      ((d ∈ dead2) ↔ ∀ port ∈ WEB_PORTS, tcpB ip port = false) := by
  obtain ⟨ip, pre, post, hsel, hsplit, hpre, htruthy⟩ :=
    selectIp_spec ips (hall (d, ips) hmem)
  have hprobe : ∀ c ∈ cands, ∀ ipc, selectIp c.2 = some ipc →
      probeCandidate tcp c.2 = .ok (WEB_PORTS.map (tcpB ipc)) := by
    intro c hc ipc hselc
    rw [probeCandidate, hselc]
    exact exceptMap_ok_of_forall _ (tcpB ipc) WEB_PORTS
      (fun port _ => by rw [hben ipc port]; rfl)
  have hip : ∀ c ∈ cands, (selectIp c.2).isSome = true := by
    intro c hc
    obtain ⟨ipc, _, _, hselc, _, _, _⟩ := selectIp_spec c.2 (hall c hc)
    rw [hselc]; rfl
  -- the value each candidate's gathered future settles to
  have hg : ∀ c ∈ cands,
      (fun dv => (probeCandidate tcp dv.2).map (fun st => (dv.1, st))) c =
      .ok ((fun dv : String × List (Option String) =>
        (dv.1, match selectIp dv.2 with
               | some ipc => WEB_PORTS.map (tcpB ipc)
               | none => ([] : List Bool))) c) := by
    intro c hc
    cases hselc : selectIp c.2 with
    | none =>
      exfalso
      have := hip c hc
      rw [hselc] at this
      exact absurd this (by decide)
    | some ipc =>
      simp only [hprobe c hc ipc hselc, Except.map, hselc]
  have hphase2 : phase2 tcp cands = .ok
      ((((cands.map (fun dv : String × List (Option String) =>
          (dv.1, match selectIp dv.2 with
                 | some ipc => WEB_PORTS.map (tcpB ipc)
                 | none => ([] : List Bool)))).filter
          (fun r => !(r.2.any id))).map (fun r => r.1))) := by
    rw [phase2, exceptMap_ok_of_forall _ _ cands hg]
  refine ⟨ip, pre, post, _, hsel, hsplit, hpre, hprobe (d, ips) hmem ip hsel, hphase2, ?_⟩
  have hstatus : (WEB_PORTS.map (tcpB ip)).any id = false ↔
      ∀ port ∈ WEB_PORTS, tcpB ip port = false := by
    constructor
    · intro h port hport
      cases ht : tcpB ip port
      · rfl
      · exfalso
        have : (WEB_PORTS.map (tcpB ip)).any id = true :=
          List.any_eq_true.mpr ⟨true, List.mem_map.mpr ⟨port, hport, ht⟩, rfl⟩
        rw [h] at this
        exact absurd this (by decide)
    · intro h
      cases ha : (WEB_PORTS.map (tcpB ip)).any id
      · rfl
      · obtain ⟨b, hb, hid⟩ := List.any_eq_true.mp ha
        obtain ⟨port, hport, hbp⟩ := List.mem_map.mp hb
        rw [← hbp] at hid
        rw [h port hport] at hid
        exact absurd hid (by decide)
  constructor
  · intro hd2
    obtain ⟨r, hr, hrd⟩ := List.mem_map.mp hd2
    have hrf := List.mem_filter.mp hr
    obtain ⟨c, hc, hgc⟩ := List.mem_map.mp hrf.1
    have hcd : c.1 = d := by rw [← hgc] at hrd; exact hrd
    have hcips : c.2 = ips := by
      have hc' : (d, c.2) ∈ cands := by
        have : c = (d, c.2) := by
          cases c
          simp only at hcd
          rw [hcd]
        rw [← this]; exact hc
      exact assoc_value_eq cands hnd d c.2 ips hc' hmem
    have hrval : r.2 = WEB_PORTS.map (tcpB ip) := by
      rw [← hgc]
      simp only
      rw [hcips, hsel]
    rw [← hstatus]
    have := hrf.2
    rw [hrval] at this
    cases hres : (WEB_PORTS.map (tcpB ip)).any id
    · rfl
    · rw [hres] at this; exact absurd this (by decide)
  · intro hports
    have hmem2 : (d, WEB_PORTS.map (tcpB ip)) ∈
        cands.map (fun dv : String × List (Option String) =>
          (dv.1, match selectIp dv.2 with
                 | some ipc => WEB_PORTS.map (tcpB ipc)
                 | none => ([] : List Bool))) := by
      refine List.mem_map.mpr ⟨(d, ips), hmem, ?_⟩
      simp only
      rw [hsel]
    refine List.mem_map.mpr ⟨(d, WEB_PORTS.map (tcpB ip)), List.mem_filter.mpr ⟨hmem2, ?_⟩, rfl⟩
    simp only
    rw [hstatus.mpr hports]
    rfl

/-- Concrete instance of `phase2_classification`: one candidate with mixed
vector, both ports refused, so the domain is dead via TCP. -/
theorem phase2_classification_witness :
    ∃ ip pre post dead2,
      selectIp [none, some "1.2.3.4"] = some ip ∧
      ([none, some "1.2.3.4"] : List (Option String)) = pre ++ some ip :: post ∧
      (∀ o ∈ pre, truthy o = false) ∧
      probeCandidate (fun _ _ => .connectionRefused) [none, some "1.2.3.4"] =
        .ok (WEB_PORTS.map ((fun _ _ => false) ip)) ∧
      phase2 (fun _ _ => .connectionRefused) [("d", [none, some "1.2.3.4"])] = .ok dead2 ∧
      (("d" ∈ dead2) ↔ ∀ port ∈ WEB_PORTS, (fun _ _ => false) ip port = false) :=
  phase2_classification (fun _ _ => .connectionRefused) (fun _ _ => false)
    (fun _ _ => rfl) [("d", [none, some "1.2.3.4"])] (by decide) (by decide)
    "d" [none, some "1.2.3.4"] (by decide)

/-! ### Fail-fast behaviour of the run -/

/-- Claim C4: fail-fast atomicity.  If some phase-2 probe of some candidate
hits a fatal (non-allow-listed) TCP error, the whole pipeline aborts with an
error, and the list file keeps its original contents; the file is rewritten
only when the pipeline returns successfully. -/
theorem fail_fast_atomicity (tcp : String → Nat → ConnectResult)
    (domains : List String) (vecs : List (List (Option String)))
    (hfatal : ∃ c ∈ (phase1 (domains.zip vecs)).candidates, ∃ ip,
      selectIp c.2 = some ip ∧ ∃ port ∈ WEB_PORTS, ∃ en,
        has_tcp_port_open (tcp ip port) = .error en) :
    (∃ e, runPipeline tcp domains vecs = .error e) ∧
    runAndWrite tcp domains vecs = domains := by
  obtain ⟨c, hc, ip, hsel, port, hport, en, herr⟩ := hfatal
  have hprobe : ∃ e, probeCandidate tcp c.2 = .error e := by
    rw [probeCandidate, hsel]
    exact exceptMap_error_of_exists _ WEB_PORTS
      ⟨port, hport, RunError.fatalTcp en, by rw [herr]; rfl⟩
  obtain ⟨e1, he1⟩ := hprobe
  have houter : ∃ e, exceptMap
      (fun dv => (probeCandidate tcp dv.2).map (fun st => (dv.1, st)))
      (phase1 (domains.zip vecs)).candidates = .error e :=
    exceptMap_error_of_exists _ _ ⟨c, hc, e1, by rw [he1]; rfl⟩
  obtain ⟨e2, he2⟩ := houter
  have hp2 : phase2 tcp (phase1 (domains.zip vecs)).candidates = .error e2 := by
    rw [phase2, he2]
  have hrun : runPipeline tcp domains vecs = .error e2 := by
    rw [runPipeline, hp2]
  exact ⟨⟨e2, hrun⟩, by rw [runAndWrite, hrun]⟩

/-- Concrete instance of `fail_fast_atomicity`: one candidate domain, the
probe raises a non-allow-listed `OSError` (errno 104), the file keeps its
single original line. -/
theorem fail_fast_atomicity_witness :
    runAndWrite (fun _ _ => .osError 104) ["d"] [[some "1.2.3.4", none]] = ["d"] :=
  (fail_fast_atomicity (fun _ _ => .osError 104) ["d"] [[some "1.2.3.4", none]]
    ⟨("d", [some "1.2.3.4", none]), by decide, "1.2.3.4", rfl, 80, by decide,
      104, rfl⟩).2

/-! ### Set-insertion lemmas for the dead-domain set -/

lemma setInsert_mem (s : List String) (x d : String) :
    d ∈ setInsert s x ↔ d ∈ s ∨ d = x := by
  rw [setInsert]
  by_cases hx : x ∈ s
  · rw [if_pos hx]
    constructor
    · exact Or.inl
    · rintro (h | h)
      · exact h
      · rw [h]; exact hx
  · rw [if_neg hx]
    simp [List.mem_append]

lemma setInsert_nodup (s : List String) (x : String) (h : s.Nodup) :
    (setInsert s x).Nodup := by
  rw [setInsert]
  by_cases hx : x ∈ s
  · rw [if_pos hx]; exact h
  · rw [if_neg hx]
    exact List.Nodup.append h (List.nodup_singleton x)
      (by intro a ha hb; rw [List.mem_singleton] at hb; rw [hb] at ha; exact hx ha)

lemma foldl_setInsert_mem (l : List String) :
    ∀ s d, d ∈ l.foldl setInsert s ↔ d ∈ s ∨ d ∈ l := by
  induction l with
  | nil => intro s d; simp
  | cons hd tl ih =>
    intro s d
    rw [List.foldl_cons, ih, setInsert_mem]
    constructor
    · rintro ((h | h) | h)
      · exact Or.inl h
      · exact Or.inr (by rw [h]; exact List.mem_cons_self hd tl)
      · exact Or.inr (List.mem_cons_of_mem hd h)
    · rintro (h | h)
      · exact Or.inl (Or.inl h)
      · rcases List.mem_cons.mp h with he | hm
        · exact Or.inl (Or.inr he)
        · exact Or.inr hm

lemma foldl_setInsert_nodup (l : List String) :
    ∀ s, s.Nodup → (l.foldl setInsert s).Nodup := by
  induction l with
  | nil => intro s h; exact h
  | cons hd tl ih => intro s h; exact ih _ (setInsert_nodup s hd h)

lemma phase1_dead1_nodup (l : List (String × List (Option String))) :
    ∀ st : Phase1State, st.dead1.Nodup → ((l.foldl phase1Step st).dead1).Nodup := by
  induction l with
  | nil => intro st h; exact h
  | cons hd tl ih =>
    intro st h
    rw [List.foldl_cons]
    refine ih _ ?_
    rw [phase1Step]
    by_cases h1 : anyR hd.2 = false
    · rw [if_pos h1]; exact setInsert_nodup _ _ h
    · rw [if_neg h1]
      by_cases h2 : allR hd.2 = false
      · rw [if_pos h2]; exact h
      · rw [if_neg h2]; exact h

/-- Claim C10: duplicate input lines.  On a successful run, every occurrence
of a dead domain is removed from the rewritten file (its line count in the
new contents is zero), while the reported removal count is the size of the
dead-domain set: the dead list is duplicate-free and the count is its
length, i.e. the number of distinct dead domain strings, not the number of
removed lines. -/
theorem duplicate_line_handling (tcp : String → Nat → ConnectResult)
    (domains : List String) (vecs : List (List (Option String)))
    (nf dead : List String) (cnt : Nat)
    (hrun : runPipeline tcp domains vecs = .ok (nf, dead, cnt)) :
    (∀ d ∈ dead, nf.count d = 0) ∧ dead.Nodup ∧ cnt = dead.length := by
  rw [runPipeline] at hrun
  cases hp2 : phase2 tcp (phase1 (domains.zip vecs)).candidates with
  | error e => rw [hp2] at hrun; exact absurd hrun (by intro hc; exact nomatch hc)
  | ok dead2 =>
    rw [hp2] at hrun
    have hnf : domains.filter
        (fun d => !(decide (d ∈ dead2.foldl setInsert (phase1 (domains.zip vecs)).dead1))) = nf := by
      injection hrun with h1
      injection h1 with h2 _
    have hdead : dead2.foldl setInsert (phase1 (domains.zip vecs)).dead1 = dead := by
      injection hrun with h1
      injection h1 with _ h2
      injection h2 with h3 _
    have hcnt : (dead2.foldl setInsert (phase1 (domains.zip vecs)).dead1).length = cnt := by
      injection hrun with h1
      injection h1 with _ h2
      injection h2 with _ h3
    refine ⟨?_, ?_, ?_⟩
    · intro d hd
      rw [List.count_eq_zero]
      intro hdnf
      rw [← hnf] at hdnf
      have := (List.mem_filter.mp hdnf).2
      rw [hdead] at this
      simp only [Bool.not_eq_true', decide_eq_false_iff_not] at this
      exact this hd
    · rw [← hdead]
      exact foldl_setInsert_nodup dead2 _
        (phase1_dead1_nodup (domains.zip vecs) ⟨[], []⟩ List.nodup_nil)
    · rw [← hcnt, hdead]

/-- Concrete instance of `duplicate_line_handling`: the dead domain `a`
appears on two input lines; both lines are removed while the reported count
is 1. -/
theorem duplicate_line_handling_witness :
    (["b"] : List String).count "a" = 0 ∧
    (["a"] : List String).Nodup ∧ (1 : Nat) = (["a"] : List String).length := by
  refine ⟨?_, ?_, ?_⟩
  · exact (duplicate_line_handling (fun _ _ => .success) ["a", "a", "b"]
      [[none], [none], [some "1.2.3.4"]] ["b"] ["a"] 1 rfl).1 "a" (by decide)
  · exact (duplicate_line_handling (fun _ _ => .success) ["a", "a", "b"]
      [[none], [none], [some "1.2.3.4"]] ["b"] ["a"] 1 rfl).2.1
  · exact (duplicate_line_handling (fun _ _ => .success) ["a", "a", "b"]
      [[none], [none], [some "1.2.3.4"]] ["b"] ["a"] 1 rfl).2.2

/-! ### Membership in the phase-1 classification results -/

lemma phase1_dead1_mem (l : List (String × List (Option String))) :
    ∀ (st : Phase1State) (d : String),
      d ∈ (l.foldl phase1Step st).dead1 ↔
        d ∈ st.dead1 ∨ ∃ v, (d, v) ∈ l ∧ anyR v = false := by
  induction l with
  | nil => intro st d; simp
  | cons hd tl ih =>
    intro st d
    rw [List.foldl_cons, ih, phase1Step]
    by_cases h1 : anyR hd.2 = false
    · rw [if_pos h1]
      show d ∈ setInsert st.dead1 hd.1 ∨ _ ↔ _
      rw [setInsert_mem]
      constructor
      · rintro ((h | h) | ⟨v, hv, hva⟩)
        · exact Or.inl h
        · refine Or.inr ⟨hd.2, ?_, h1⟩
          have : (d, hd.2) = hd := by rw [h]
          rw [this]
          exact List.mem_cons_self hd tl
        · exact Or.inr ⟨v, List.mem_cons_of_mem hd hv, hva⟩
      · rintro (h | ⟨v, hv, hva⟩)
        · exact Or.inl (Or.inl h)
        · rcases List.mem_cons.mp hv with he | hm
          · exact Or.inl (Or.inr (by rw [← he]))
          · exact Or.inr ⟨v, hm, hva⟩
    · have hcontra : ∀ v, (d, v) ∈ hd :: tl → anyR v = false → ∃ v2, (d, v2) ∈ tl ∧ anyR v2 = false := by
        intro v hv hva
        rcases List.mem_cons.mp hv with he | hm
        · exfalso
          have : v = hd.2 := by rw [← he]
          rw [this] at hva
          exact h1 hva
        · exact ⟨v, hm, hva⟩
      by_cases h2 : allR hd.2 = false
      · rw [if_neg h1, if_pos h2]
        show d ∈ st.dead1 ∨ _ ↔ _
        constructor
        · rintro (h | ⟨v, hv, hva⟩)
          · exact Or.inl h
          · exact Or.inr ⟨v, List.mem_cons_of_mem hd hv, hva⟩
        · rintro (h | ⟨v, hv, hva⟩)
          · exact Or.inl h
          · exact Or.inr (hcontra v hv hva)
      · rw [if_neg h1, if_neg h2]
        constructor
        · rintro (h | ⟨v, hv, hva⟩)
          · exact Or.inl h
          · exact Or.inr ⟨v, List.mem_cons_of_mem hd hv, hva⟩
        · rintro (h | ⟨v, hv, hva⟩)
          · exact Or.inl h
          · exact Or.inr (hcontra v hv hva)

lemma dictInsert_keys_mem (cands : List (String × List (Option String)))
    (k : String) (v : List (Option String)) (d : String) :
    d ∈ (dictInsert cands k v).map Prod.fst ↔ d ∈ cands.map Prod.fst ∨ d = k := by
  rw [dictInsert]
  by_cases hk : cands.any (fun kv => kv.1 == k) = true
  · rw [if_pos hk]
    have hkeys : (cands.map (fun kv => if kv.1 == k then (k, v) else kv)).map Prod.fst =
        cands.map Prod.fst := by
      rw [List.map_map]
      refine List.map_congr_left ?_
      intro kv _
      by_cases hc : (kv.1 == k) = true
      · simp only [Function.comp, hc, if_pos]
        exact (beq_iff_eq.mp hc).symm
      · simp only [Function.comp, hc, if_neg, Bool.false_eq_true, not_false_eq_true]
    rw [hkeys]
    constructor
    · exact Or.inl
    · rintro (h | h)
      · exact h
      · obtain ⟨kv, hkv, hbeq⟩ := List.any_eq_true.mp hk
        rw [h, ← beq_iff_eq.mp hbeq]
        exact List.mem_map.mpr ⟨kv, hkv, rfl⟩
  · rw [if_neg hk, List.map_append]
    simp [List.mem_append]

lemma phase1_candkeys_mem (l : List (String × List (Option String))) :
    ∀ (st : Phase1State) (d : String),
      d ∈ ((l.foldl phase1Step st).candidates.map Prod.fst) ↔
        d ∈ st.candidates.map Prod.fst ∨
        ∃ v, (d, v) ∈ l ∧ anyR v = true ∧ allR v = false := by
  induction l with
  | nil => intro st d; simp
  | cons hd tl ih =>
    intro st d
    rw [List.foldl_cons, ih, phase1Step]
    by_cases h1 : anyR hd.2 = false
    · rw [if_pos h1]
      constructor
      · rintro (h | ⟨v, hv, hva⟩)
        · exact Or.inl h
        · exact Or.inr ⟨v, List.mem_cons_of_mem hd hv, hva⟩
      · rintro (h | ⟨v, hv, hva, hvl⟩)
        · exact Or.inl h
        · rcases List.mem_cons.mp hv with he | hm
          · exfalso
            have : v = hd.2 := by rw [← he]
            rw [this, h1] at hva
            exact absurd hva (by decide)
          · exact Or.inr ⟨v, hm, hva, hvl⟩
    · have hany : anyR hd.2 = true := by
        cases ha : anyR hd.2
        · exact absurd ha h1
        · rfl
      by_cases h2 : allR hd.2 = false
      · rw [if_neg h1, if_pos h2]
        show d ∈ (dictInsert st.candidates hd.1 hd.2).map Prod.fst ∨ _ ↔ _
        rw [dictInsert_keys_mem]
        constructor
        · rintro ((h | h) | ⟨v, hv, hva, hvl⟩)
          · exact Or.inl h
          · refine Or.inr ⟨hd.2, ?_, hany, h2⟩
            have : (d, hd.2) = hd := by rw [h]
            rw [this]
            exact List.mem_cons_self hd tl
          · exact Or.inr ⟨v, List.mem_cons_of_mem hd hv, hva, hvl⟩
        · rintro (h | ⟨v, hv, hva, hvl⟩)
          · exact Or.inl (Or.inl h)
          · rcases List.mem_cons.mp hv with he | hm
            · exact Or.inl (Or.inr (by rw [← he]))
            · exact Or.inr ⟨v, hm, hva, hvl⟩
      · rw [if_neg h1, if_neg h2]
        constructor
        · rintro (h | ⟨v, hv, hva, hvl⟩)
          · exact Or.inl h
          · exact Or.inr ⟨v, List.mem_cons_of_mem hd hv, hva, hvl⟩
        · rintro (h | ⟨v, hv, hva, hvl⟩)
          · exact Or.inl h
          · rcases List.mem_cons.mp hv with he | hm
            · exfalso
              have : v = hd.2 := by rw [← he]
              rw [this] at hvl
              exact h2 hvl
            · exact Or.inr ⟨v, hm, hva, hvl⟩

lemma forall₂_mem_right {α β : Type} {R : α → β → Prop} {l : List α} {ys : List β}
    (h : List.Forall₂ R l ys) : ∀ b ∈ ys, ∃ a ∈ l, R a b := by
  induction h with
  | nil => intro b hb; exact absurd hb (List.not_mem_nil b)
  | cons hr _ ih =>
    intro b hb
    rcases List.mem_cons.mp hb with he | hm
    · exact ⟨_, List.mem_cons_self _ _, he ▸ hr⟩
    · obtain ⟨a, ha, har⟩ := ih b hm
      exact ⟨a, List.mem_cons_of_mem _ ha, har⟩

lemma phase2_dead2_subset (tcp : String → Nat → ConnectResult)
    (cands : List (String × List (Option String))) (dead2 : List String)
    (h : phase2 tcp cands = .ok dead2) : ∀ d ∈ dead2, d ∈ cands.map Prod.fst := by
  rw [phase2] at h
  cases hm : exceptMap (fun dv => (probeCandidate tcp dv.2).map (fun st => (dv.1, st))) cands with
  | error e => rw [hm] at h; exact absurd h (by intro hc; exact nomatch hc)
  | ok results =>
    rw [hm] at h
    have hres : List.Forall₂
        (fun a b => (probeCandidate tcp a.2).map (fun st => (a.1, st)) = .ok b)
        cands results := exceptMap_ok_forall₂ _ cands results hm
    have hd2 : (results.filter (fun r => !(r.2.any id))).map (fun r => r.1) = dead2 := by
      injection h
    intro d hd
    rw [← hd2] at hd
    obtain ⟨r, hr, hrd⟩ := List.mem_map.mp hd
    obtain ⟨a, ha, har⟩ := forall₂_mem_right hres r (List.mem_filter.mp hr).1
    cases hp : probeCandidate tcp a.2 with
    | error e => rw [hp] at har; exact absurd har (by intro hc; exact nomatch hc)
    | ok st =>
      rw [hp] at har
      have : (a.1, st) = r := by
        have := har
        rw [Except.map] at this
        injection this
      refine List.mem_map.mpr ⟨a, ha, ?_⟩
      rw [← hrd, ← this]

/-- Claim C7: classification exhaustiveness.  For a duplicate-free input list
(an input domain set) on a successful run, every string is an input domain
exactly when it lands in one of the three classes dead-via-DNS, dead-via-TCP
or alive, and no string is in two of the classes. -/
theorem classification_partition (tcp : String → Nat → ConnectResult)
    (domains : List String) (vecs : List (List (Option String)))
    (hlen : domains.length = vecs.length) (hnd : domains.Nodup)
    (dead2 : List String) (hp2 : deadViaTCP tcp domains vecs = .ok dead2)
    (d : String) :
    (d ∈ domains ↔ (d ∈ deadViaDNS domains vecs ∨ d ∈ dead2 ∨
      d ∈ aliveDomains domains (deadViaDNS domains vecs) dead2)) ∧
    ¬(d ∈ deadViaDNS domains vecs ∧ d ∈ dead2) ∧
    ¬(d ∈ deadViaDNS domains vecs ∧
      d ∈ aliveDomains domains (deadViaDNS domains vecs) dead2) ∧
    ¬(d ∈ dead2 ∧ d ∈ aliveDomains domains (deadViaDNS domains vecs) dead2) := by
  have hzipnd : ((domains.zip vecs).map Prod.fst).Nodup := by
    rw [List.map_fst_zip domains vecs (by omega)]
    exact hnd
  have hdead1_iff : ∀ x, x ∈ deadViaDNS domains vecs ↔
      ∃ v, (x, v) ∈ domains.zip vecs ∧ anyR v = false := by
    intro x
    rw [deadViaDNS, phase1, phase1_dead1_mem]
    constructor
    · rintro (h | h)
      · exact absurd h (List.not_mem_nil x)
      · exact h
    · exact Or.inr
  have hcand_iff : ∀ x, x ∈ ((phase1 (domains.zip vecs)).candidates.map Prod.fst) ↔
      ∃ v, (x, v) ∈ domains.zip vecs ∧ anyR v = true ∧ allR v = false := by
    intro x
    rw [phase1, phase1_candkeys_mem]
    constructor
    · rintro (h | h)
      · exact absurd h (by simp)
      · exact h
    · exact Or.inr
  have hdead2_sub : ∀ x ∈ dead2, ∃ v, (x, v) ∈ domains.zip vecs ∧
      anyR v = true ∧ allR v = false := by
    intro x hx
    exact (hcand_iff x).mp (phase2_dead2_subset tcp _ dead2 hp2 x hx)
  have hdisj12 : ¬(d ∈ deadViaDNS domains vecs ∧ d ∈ dead2) := by
    rintro ⟨h1, h2⟩
    obtain ⟨v1, hv1, ha1⟩ := (hdead1_iff d).mp h1
    obtain ⟨v2, hv2, ha2, _⟩ := hdead2_sub d h2
    have : v1 = v2 := assoc_value_eq _ hzipnd d v1 v2 hv1 hv2
    rw [this, ha2] at ha1
    exact absurd ha1 (by decide)
  have halive_iff : d ∈ aliveDomains domains (deadViaDNS domains vecs) dead2 ↔
      d ∈ domains ∧ d ∉ deadViaDNS domains vecs ∧ d ∉ dead2 := by
    rw [aliveDomains, List.mem_filter]
    simp only [Bool.not_eq_true', Bool.or_eq_false_iff, decide_eq_false_iff_not]
  refine ⟨?_, hdisj12, ?_, ?_⟩
  · constructor
    · intro hdom
      by_cases h1 : d ∈ deadViaDNS domains vecs
      · exact Or.inl h1
      · by_cases h2 : d ∈ dead2
        · exact Or.inr (Or.inl h2)
        · exact Or.inr (Or.inr (halive_iff.mpr ⟨hdom, h1, h2⟩))
    · rintro (h | h | h)
      · obtain ⟨v, hv, _⟩ := (hdead1_iff d).mp h
        exact (List.of_mem_zip hv).1
      · obtain ⟨v, hv, _⟩ := hdead2_sub d h
        exact (List.of_mem_zip hv).1
      · exact (halive_iff.mp h).1
  · rintro ⟨h1, h2⟩
    exact (halive_iff.mp h2).2.1 h1
  · rintro ⟨h1, h2⟩
    exact (halive_iff.mp h2).2.2 h1

/-- Concrete instance of `classification_partition`: the three-domain
scenario of the spec (alive on all servers, dead via DNS, mixed with an open
port), checked at the dead domain. -/
theorem classification_partition_witness :
    (("b.test" : String) ∈ ["a.test", "b.test", "c.test"] ↔
      ("b.test" ∈ deadViaDNS ["a.test", "b.test", "c.test"]
          [[some "9.9.9.9", some "9.9.9.9"], [none, none], [some "203.0.113.5", none]] ∨
        "b.test" ∈ ([] : List String) ∨
        "b.test" ∈ aliveDomains ["a.test", "b.test", "c.test"]
          (deadViaDNS ["a.test", "b.test", "c.test"]
            [[some "9.9.9.9", some "9.9.9.9"], [none, none], [some "203.0.113.5", none]])
          ([] : List String))) ∧
    ¬("b.test" ∈ deadViaDNS ["a.test", "b.test", "c.test"]
        [[some "9.9.9.9", some "9.9.9.9"], [none, none], [some "203.0.113.5", none]] ∧
      "b.test" ∈ ([] : List String)) ∧
    ¬("b.test" ∈ deadViaDNS ["a.test", "b.test", "c.test"]
        [[some "9.9.9.9", some "9.9.9.9"], [none, none], [some "203.0.113.5", none]] ∧
      "b.test" ∈ aliveDomains ["a.test", "b.test", "c.test"]
        (deadViaDNS ["a.test", "b.test", "c.test"]
          [[some "9.9.9.9", some "9.9.9.9"], [none, none], [some "203.0.113.5", none]])
        ([] : List String)) ∧
    ¬("b.test" ∈ ([] : List String) ∧
      "b.test" ∈ aliveDomains ["a.test", "b.test", "c.test"]
        (deadViaDNS ["a.test", "b.test", "c.test"]
          [[some "9.9.9.9", some "9.9.9.9"], [none, none], [some "203.0.113.5", none]])
        ([] : List String)) :=
  classification_partition
    (fun _ port => if port = 443 then .success else .connectionRefused)
    ["a.test", "b.test", "c.test"]
    [[some "9.9.9.9", some "9.9.9.9"], [none, none], [some "203.0.113.5", none]]
    (by decide) (by decide) [] rfl "b.test"

/-! ### The per-server gate bound -/

lemma countP_set_add (p : TaskPhase → Bool) :
    ∀ (l : List TaskPhase) (i : Nat) (v : TaskPhase) (hi : i < l.length),
      (l.set i v).countP p + (if p (l.get ⟨i, hi⟩) then 1 else 0) =
      l.countP p + (if p v then 1 else 0) := by
  intro l
  induction l with
  | nil => intro i v hi; simp at hi
  | cons hd tl ih =>
    intro i v hi
    cases i with
    | zero =>
      show (v :: tl).countP p + _ = (hd :: tl).countP p + _
      rw [List.countP_cons, List.countP_cons]
      have hget : (hd :: tl).get ⟨0, hi⟩ = hd := rfl
      rw [hget]
      omega
    | succ j =>
      have hj : j < tl.length := by simpa using hi
      have hset : (hd :: tl).set (j + 1) v = hd :: tl.set j v := rfl
      have hget : (hd :: tl).get ⟨j + 1, hi⟩ = tl.get ⟨j, hj⟩ := rfl
      rw [hset, hget, List.countP_cons, List.countP_cons]
      have := ih j v hj
      omega

lemma gateInv_init (n : Nat) : gateInv (initGate n) := by
  intro s
  have hz : inFlight (initGate n) s = 0 := by
    rw [inFlight, initGate]
    refine List.countP_eq_zero.mpr ?_
    intro a ha
    rw [List.eq_of_mem_replicate ha]
    intro hc
    exact nomatch hc
  rw [hz]
  rfl

lemma gateInv_step (σ σ2 : GateState) (hstep : GateStep σ σ2) (hinv : gateInv σ) :
    gateInv σ2 := by
  cases hstep with
  | acquire i s hi hidle hsem =>
    intro t
    have hcount := countP_set_add (isQuerying t) σ.tasks i (.querying s) hi
    rw [hidle] at hcount
    have hidle_val : isQuerying t TaskPhase.idle = false := rfl
    rw [hidle_val] at hcount
    have hbase := hinv t
    rw [inFlight] at hbase
    by_cases hts : t = s
    · subst hts
      have hq : isQuerying t (TaskPhase.querying t) = true := by
        show (t == t) = true
        exact beq_self_eq_true t
      rw [hq] at hcount
      simp only [if_pos, if_neg] at hcount
      show (σ.tasks.set i (TaskPhase.querying t)).countP (isQuerying t) +
        Function.update σ.sem t (σ.sem t - 1) t = MAX_CONCURRENT_REQUESTS_PER_DNS_SERVER
      rw [Function.update_same t _ σ.sem]
      simp at hcount
      omega
    · have hq : isQuerying t (TaskPhase.querying s) = false := by
        show (s == t) = false
        exact beq_eq_false_iff_ne.mpr (fun he => hts he.symm)
      rw [hq] at hcount
      show (σ.tasks.set i (TaskPhase.querying s)).countP (isQuerying t) +
        Function.update σ.sem s (σ.sem s - 1) t = MAX_CONCURRENT_REQUESTS_PER_DNS_SERVER
      rw [Function.update_noteq hts _ σ.sem]
      simp at hcount
      omega
  | release i s hi hq =>
    intro t
    have hcount := countP_set_add (isQuerying t) σ.tasks i .idle hi
    rw [hq] at hcount
    have hidle_val : isQuerying t TaskPhase.idle = false := rfl
    rw [hidle_val] at hcount
    have hbase := hinv t
    rw [inFlight] at hbase
    by_cases hts : t = s
    · subst hts
      have hqv : isQuerying t (TaskPhase.querying t) = true := by
        show (t == t) = true
        exact beq_self_eq_true t
      rw [hqv] at hcount
      show (σ.tasks.set i TaskPhase.idle).countP (isQuerying t) +
        Function.update σ.sem t (σ.sem t + 1) t = MAX_CONCURRENT_REQUESTS_PER_DNS_SERVER
      rw [Function.update_same t _ σ.sem]
      simp at hcount
      omega
    · have hqv : isQuerying t (TaskPhase.querying s) = false := by
        show (s == t) = false
        exact beq_eq_false_iff_ne.mpr (fun he => hts he.symm)
      rw [hqv] at hcount
      show (σ.tasks.set i TaskPhase.idle).countP (isQuerying t) +
        Function.update σ.sem s (σ.sem s + 1) t = MAX_CONCURRENT_REQUESTS_PER_DNS_SERVER
      rw [Function.update_noteq hts _ σ.sem]
      simp at hcount
      omega
lemma gateInv_reachable (σ : GateState) (h : GateReachable σ) : gateInv σ := by
  obtain ⟨n, hr⟩ := h
  induction hr with
  | refl => exact gateInv_init n
  | tail _ hstep ih => exact gateInv_step _ _ hstep ih

/-- Claim C6: gate bound.  Every resolution attempt enters the in-flight
state for its exact server address only through an `acquire` transition on
that server's gate (possible only while the gate's counter is positive) and
leaves it through the matching `release` when the query settles; hence in
every reachable state of the gate system the number of concurrently in-flight
queries against any server address never exceeds the configured per-server
limit. -/
theorem gate_concurrency_bound (σ : GateState) (h : GateReachable σ) (s : String) :
    inFlight σ s ≤ MAX_CONCURRENT_REQUESTS_PER_DNS_SERVER := by
  have := gateInv_reachable σ h s
  omega

/-- Concrete instance of `gate_concurrency_bound` at an initial state with
three tasks. -/
theorem gate_concurrency_bound_witness :
    inFlight (initGate 3) "8.8.8.8" ≤ MAX_CONCURRENT_REQUESTS_PER_DNS_SERVER :=
  gate_concurrency_bound (initGate 3) ⟨3, Relation.ReflTransGen.refl⟩ "8.8.8.8"

/-! ### Determinism of the pipeline under randomised server selection -/

lemma perm_any_congr {α : Type} (p : α → Bool) {l1 l2 : List α} (h : l1.Perm l2) :
    l1.any p = l2.any p := by
  cases ha : l1.any p with
  | false =>
    cases hb : l2.any p with
    | false => rfl
    | true =>
      obtain ⟨x, hx, hpx⟩ := List.any_eq_true.mp hb
      have : l1.any p = true := List.any_eq_true.mpr ⟨x, h.mem_iff.mpr hx, hpx⟩
      rw [ha] at this
      exact absurd this (by decide)
  | true =>
    obtain ⟨x, hx, hpx⟩ := List.any_eq_true.mp ha
    exact (List.any_eq_true.mpr ⟨x, h.mem_iff.mp hx, hpx⟩).symm

lemma perm_all_congr {α : Type} (p : α → Bool) {l1 l2 : List α} (h : l1.Perm l2) :
    l1.all p = l2.all p := by
  cases ha : l1.all p with
  | true =>
    exact (List.all_eq_true.mpr (fun x hx =>
      List.all_eq_true.mp ha x (h.mem_iff.mpr hx))).symm
  | false =>
    cases hb : l2.all p with
    | false => rfl
    | true =>
      have : l1.all p = true := List.all_eq_true.mpr (fun x hx =>
        List.all_eq_true.mp hb x (h.mem_iff.mp hx))
      rw [ha] at this
      exact absurd this (by decide)

lemma dns_resolve_domain_perm (resolve : String → String → Option String)
    (hgrp : ∀ d g, g ∈ DNS_SERVERS → resolve d g.1 = resolve d g.2)
    (r : Rand) (hr : r.valid) (d : String) :
    (dns_resolve_domain resolve r d).Perm (DNS_SERVERS.map (fun g => resolve d g.1)) := by
  rcases hr with ⟨hperm, hchoice⟩
  have heq : dns_resolve_domain resolve r d = r.perm.map (fun g => resolve d g.1) := by
    rw [dns_resolve_domain]
    refine List.map_congr_left ?_
    intro g hg
    rcases hchoice g hg with hc | hc
    · rw [hc]
    · rw [hc]
      exact (hgrp d g (hperm.mem_iff.mp hg)).symm
  rw [heq]
  exact hperm.map _

lemma dns_resolve_domain_elem (resolve : String → String → Option String)
    (r : Rand) (d : String) :
    ∀ o ∈ dns_resolve_domain resolve r d, ∃ s, o = resolve d s := by
  intro o ho
  obtain ⟨g, _, hg⟩ := List.mem_map.mp ho
  exact ⟨r.choice g, hg.symm⟩

lemma selectIp_eq_of_same_source (resolve : String → String → Option String)
    (huniq : ∀ d s t a b, resolve d s = some a → resolve d t = some b → a = b)
    (d : String) (v1 v2 : List (Option String))
    (he1 : ∀ o ∈ v1, ∃ s, o = resolve d s) (he2 : ∀ o ∈ v2, ∃ s, o = resolve d s)
    (hany : anyR v1 = anyR v2) : selectIp v1 = selectIp v2 := by
  cases ha : anyR v1 with
  | false =>
    rw [(selectIp_eq_none_iff v1).mpr ha,
      (selectIp_eq_none_iff v2).mpr (by rw [← hany]; exact ha)]
  | true =>
    have ha2 : anyR v2 = true := by rw [← hany]; exact ha
    obtain ⟨ip1, pre1, post1, hsel1, hsplit1, _, _⟩ := selectIp_spec v1 ha
    obtain ⟨ip2, pre2, post2, hsel2, hsplit2, _, _⟩ := selectIp_spec v2 ha2
    rw [hsel1, hsel2]
    have hm1 : some ip1 ∈ v1 := by
      rw [hsplit1]; exact List.mem_append_right _ (List.mem_cons_self _ _)
    have hm2 : some ip2 ∈ v2 := by
      rw [hsplit2]; exact List.mem_append_right _ (List.mem_cons_self _ _)
    obtain ⟨s1, hs1⟩ := he1 _ hm1
    obtain ⟨s2, hs2⟩ := he2 _ hm2
    rw [huniq d s1 s2 ip1 ip2 hs1.symm hs2.symm]

lemma candRel_any_key : ∀ {c1 c2 : List (String × List (Option String))},
    CandRel c1 c2 → ∀ k : String,
    c1.any (fun kv => kv.1 == k) = c2.any (fun kv => kv.1 == k) := by
  intro c1
  induction c1 with
  | nil =>
    intro c2 h k
    cases h
    rfl
  | cons a l1 ih =>
    intro c2 h k
    cases c2 with
    | nil => cases h
    | cons b l2 =>
      cases h with
      | cons hr hrest => rw [List.any_cons, List.any_cons, ih hrest k, hr.1]

lemma candRel_map_replace : ∀ {c1 c2 : List (String × List (Option String))},
    CandRel c1 c2 → ∀ (k : String) (v1 v2 : List (Option String)),
    selectIp v1 = selectIp v2 →
    CandRel (c1.map (fun kv => if kv.1 == k then (k, v1) else kv))
      (c2.map (fun kv => if kv.1 == k then (k, v2) else kv)) := by
  intro c1
  induction c1 with
  | nil =>
    intro c2 h k v1 v2 hsel
    cases h
    exact List.Forall₂.nil
  | cons a l1 ih =>
    intro c2 h k v1 v2 hsel
    cases c2 with
    | nil => cases h
    | cons b l2 =>
      cases h with
      | cons hr hrest =>
        rw [List.map_cons, List.map_cons]
        refine List.Forall₂.cons ?_ (ih hrest k v1 v2 hsel)
        by_cases hc : (b.1 == k) = true
        · rw [if_pos (by rw [hr.1]; exact hc), if_pos hc]
          exact ⟨rfl, hsel⟩
        · rw [if_neg (by rw [hr.1]; exact hc), if_neg hc]
          exact hr

lemma candRel_append : ∀ {c1 c2 d1 d2 : List (String × List (Option String))},
    CandRel c1 c2 → CandRel d1 d2 → CandRel (c1 ++ d1) (c2 ++ d2) := by
  intro c1
  induction c1 with
  | nil =>
    intro c2 d1 d2 h hd
    cases h
    exact hd
  | cons a l1 ih =>
    intro c2 d1 d2 h hd
    cases c2 with
    | nil => cases h
    | cons b l2 =>
      cases h with
      | cons hr hrest => exact List.Forall₂.cons hr (ih hrest hd)

lemma candRel_dictInsert {c1 c2 : List (String × List (Option String))}
    (h : CandRel c1 c2) (k : String) (v1 v2 : List (Option String))
    (hsel : selectIp v1 = selectIp v2) :
    CandRel (dictInsert c1 k v1) (dictInsert c2 k v2) := by
  rw [dictInsert, dictInsert, candRel_any_key h k]
  by_cases hk : c2.any (fun kv => kv.1 == k) = true
  · rw [if_pos hk, if_pos hk]
    exact candRel_map_replace h k v1 v2 hsel
  · rw [if_neg hk, if_neg hk]
    exact candRel_append h (List.Forall₂.cons ⟨rfl, hsel⟩ List.Forall₂.nil)

lemma phase1Step_rel (st1 st2 : Phase1State) (hd : st1.dead1 = st2.dead1)
    (hc : CandRel st1.candidates st2.candidates)
    (p q : String × List (Option String))
    (hr : p.1 = q.1 ∧ anyR p.2 = anyR q.2 ∧ allR p.2 = allR q.2 ∧
      selectIp p.2 = selectIp q.2) :
    (phase1Step st1 p).dead1 = (phase1Step st2 q).dead1 ∧
    CandRel (phase1Step st1 p).candidates (phase1Step st2 q).candidates := by
  obtain ⟨h1, h2, h3, h4⟩ := hr
  rw [phase1Step, phase1Step, ← h2, ← h3]
  by_cases ha : anyR p.2 = false
  · rw [if_pos ha, if_pos ha]
    refine ⟨?_, hc⟩
    show setInsert st1.dead1 p.1 = setInsert st2.dead1 q.1
    rw [hd, h1]
  · rw [if_neg ha, if_neg ha]
    by_cases hb : allR p.2 = false
    · rw [if_pos hb, if_pos hb]
      refine ⟨hd, ?_⟩
      show CandRel (dictInsert st1.candidates p.1 p.2) (dictInsert st2.candidates q.1 q.2)
      rw [h1]
      exact candRel_dictInsert hc q.1 p.2 q.2 h4
    · rw [if_neg hb, if_neg hb]
      exact ⟨hd, hc⟩

lemma phase1_fold_rel : ∀ {l1 l2 : List (String × List (Option String))}, ZipRel l1 l2 →
    ∀ st1 st2, st1.dead1 = st2.dead1 → CandRel st1.candidates st2.candidates →
    (l1.foldl phase1Step st1).dead1 = (l2.foldl phase1Step st2).dead1 ∧
    CandRel (l1.foldl phase1Step st1).candidates (l2.foldl phase1Step st2).candidates := by
  intro l1
  induction l1 with
  | nil =>
    intro l2 h st1 st2 hd hc
    cases h
    exact ⟨hd, hc⟩
  | cons p l1t ih =>
    intro l2 h st1 st2 hd hc
    cases l2 with
    | nil => cases h
    | cons q l2t =>
      cases h with
      | cons hr hrest =>
        rw [List.foldl_cons, List.foldl_cons]
        obtain ⟨hd2, hc2⟩ := phase1Step_rel st1 st2 hd hc p q hr
        exact ih hrest _ _ hd2 hc2

lemma exceptMap_probe_candRel (tcp : String → Nat → ConnectResult) :
    ∀ {c1 c2 : List (String × List (Option String))}, CandRel c1 c2 →
    exceptMap (fun dv => (probeCandidate tcp dv.2).map (fun st => (dv.1, st))) c1 =
    exceptMap (fun dv => (probeCandidate tcp dv.2).map (fun st => (dv.1, st))) c2 := by
  intro c1
  induction c1 with
  | nil =>
    intro c2 h
    cases h
    rfl
  | cons a l1 ih =>
    intro c2 h
    cases c2 with
    | nil => cases h
    | cons b l2 =>
      cases h with
      | cons hr hrest =>
        have hpe : probeCandidate tcp a.2 = probeCandidate tcp b.2 := by
          rw [probeCandidate, probeCandidate, hr.2]
        simp only [exceptMap, hpe, hr.1, ih hrest]

lemma phase2_candRel (tcp : String → Nat → ConnectResult)
    {c1 c2 : List (String × List (Option String))} (h : CandRel c1 c2) :
    phase2 tcp c1 = phase2 tcp c2 := by
  rw [phase2, phase2, exceptMap_probe_candRel tcp h]

lemma runFull_zip_rel (resolve : String → String → Option String)
    (hgrp : ∀ d g, g ∈ DNS_SERVERS → resolve d g.1 = resolve d g.2)
    (huniq : ∀ d s t a b, resolve d s = some a → resolve d t = some b → a = b) :
    ∀ (domains : List String) (r1 r2 : List Rand),
      (∀ r ∈ r1, r.valid) → (∀ r ∈ r2, r.valid) →
      r1.length = domains.length → r2.length = domains.length →
      ZipRel
        (domains.zip ((domains.zip r1).map (fun dr => dns_resolve_domain resolve dr.2 dr.1)))
        (domains.zip ((domains.zip r2).map (fun dr => dns_resolve_domain resolve dr.2 dr.1))) := by
  intro domains
  induction domains with
  | nil =>
    intro r1 r2 _ _ _ _
    exact List.Forall₂.nil
  | cons d ds ih =>
    intro r1 r2 hv1 hv2 hl1 hl2
    cases r1 with
    | nil => simp at hl1
    | cons ra rs1 =>
      cases r2 with
      | nil => simp at hl2
      | cons rb rs2 =>
        have hva := dns_resolve_domain_perm resolve hgrp ra
          (hv1 ra (List.mem_cons_self _ _)) d
        have hvb := dns_resolve_domain_perm resolve hgrp rb
          (hv2 rb (List.mem_cons_self _ _)) d
        have hperm : (dns_resolve_domain resolve ra d).Perm (dns_resolve_domain resolve rb d) :=
          hva.trans hvb.symm
        have hany : anyR (dns_resolve_domain resolve ra d) =
            anyR (dns_resolve_domain resolve rb d) := by
          rw [anyR, anyR]
          exact perm_any_congr truthy hperm
        refine List.Forall₂.cons ⟨rfl, hany, ?_, ?_⟩
          (ih rs1 rs2 (fun r hr => hv1 r (List.mem_cons_of_mem _ hr))
            (fun r hr => hv2 r (List.mem_cons_of_mem _ hr))
            (by simpa using hl1) (by simpa using hl2))
        · rw [allR, allR]
          exact perm_all_congr truthy hperm
        · exact selectIp_eq_of_same_source resolve huniq d _ _
            (dns_resolve_domain_elem resolve ra d) (dns_resolve_domain_elem resolve rb d) hany

/-- Claim C8 counterexample: the dead-domain set is not independent of the
randomness, on two counts.  First, varying only the per-group address
choice: with a mocked network whose resolver answers only on Google's
primary address and whose TCP ports are all open, the single domain `d` is
alive when every group's first address is chosen and dead when every group's
second address is chosen.  Second, varying only the shuffle: with a mocked
resolver that is uniform across each group's two addresses but resolves `d`
to the two distinct addresses `1.1.1.1` (ports closed) and `2.2.2.2` (ports
open) on two groups, two draws with the same address-choice function whose
shuffles differ only in which of those groups comes first probe different
addresses, so `d` is dead under one shuffle and alive under the other.  All
four draws are valid, and each pair yields different dead sets. -/
theorem pipeline_random_dependence :
    (randFst.valid ∧ randSnd.valid ∧
     deadSetOf (runFull mockResolve (fun _ _ => .success) [randFst] ["d"]) = [] ∧
     deadSetOf (runFull mockResolve (fun _ _ => .success) [randSnd] ["d"]) = ["d"] ∧
     ¬ (deadSetOf (runFull mockResolve (fun _ _ => .success) [randFst] ["d"]) =
        deadSetOf (runFull mockResolve (fun _ _ => .success) [randSnd] ["d"]))) ∧
    (randFst.valid ∧ randShuf.valid ∧
     (∀ d g, g ∈ DNS_SERVERS → mockResolveTwoAddrs d g.1 = mockResolveTwoAddrs d g.2) ∧
     randFst.choice = randShuf.choice ∧
     deadSetOf (runFull mockResolveTwoAddrs mockTcpOnlySecond [randFst] ["d"]) = ["d"] ∧
     deadSetOf (runFull mockResolveTwoAddrs mockTcpOnlySecond [randShuf] ["d"]) = [] ∧
     ¬ (deadSetOf (runFull mockResolveTwoAddrs mockTcpOnlySecond [randFst] ["d"]) =
        deadSetOf (runFull mockResolveTwoAddrs mockTcpOnlySecond [randShuf] ["d"]))) := by
  constructor
  · refine ⟨⟨List.Perm.refl _, fun g _ => Or.inl rfl⟩,
      ⟨List.Perm.refl _, fun g _ => Or.inr rfl⟩, rfl, rfl, ?_⟩
    intro h
    exact absurd (h : ([] : List String) = ["d"]) (by decide)
  · refine ⟨⟨List.Perm.refl _, fun g _ => Or.inl rfl⟩,
      ⟨List.Perm.swap _ _ _, fun g _ => Or.inl rfl⟩, ?_, rfl, rfl, rfl, ?_⟩
    · intro d g hg
      simp only [DNS_SERVERS, List.mem_cons, List.not_mem_nil, or_false] at hg
      rcases hg with rfl | rfl | rfl | rfl | rfl <;> rfl
    · intro h
      exact absurd (h : (["d"] : List String) = []) (by decide)

/-- Claim C8 (amended): determinism holds when the mocked network layer is
address-uniform.  If the resolver gives the same outcome on both addresses of
each configured group, and yields one single address per domain wherever it
succeeds, then two full runs over any two valid randomness draws (shuffles
and per-group address choices) return identical results — in particular the
same Dead Domain Set. -/
theorem pipeline_deterministic_for_uniform_mock
    (resolve : String → String → Option String) (tcp : String → Nat → ConnectResult)
    (domains : List String) (rands1 rands2 : List Rand)
    (hv1 : ∀ r ∈ rands1, r.valid) (hv2 : ∀ r ∈ rands2, r.valid)
    (hl1 : rands1.length = domains.length) (hl2 : rands2.length = domains.length)
    (hgrp : ∀ d g, g ∈ DNS_SERVERS → resolve d g.1 = resolve d g.2)
    (huniq : ∀ d s t a b, resolve d s = some a → resolve d t = some b → a = b) :
    runFull resolve tcp rands1 domains = runFull resolve tcp rands2 domains := by
  have hzip := runFull_zip_rel resolve hgrp huniq domains rands1 rands2 hv1 hv2 hl1 hl2
  have hfold := phase1_fold_rel hzip ⟨[], []⟩ ⟨[], []⟩ rfl List.Forall₂.nil
  have hp2 := phase2_candRel tcp hfold.2
  rw [runFull, runFull, runPipeline, runPipeline]
  simp only [phase1] at hp2 ⊢
  simp only [hp2, hfold.1]

/-- Concrete instance of `pipeline_deterministic_for_uniform_mock`: with an
address-uniform mock resolver the first-address and second-address draws give
identical results. -/
theorem pipeline_deterministic_witness :
    runFull (fun _ _ => some "1.2.3.4") (fun _ _ => .connectionRefused) [randFst] ["d"] =
    runFull (fun _ _ => some "1.2.3.4") (fun _ _ => .connectionRefused) [randSnd] ["d"] :=
  pipeline_deterministic_for_uniform_mock _ _ ["d"] [randFst] [randSnd]
    (fun r hr => by
      rw [List.mem_singleton] at hr
      rw [hr]
      exact ⟨List.Perm.refl _, fun g _ => Or.inl rfl⟩)
    (fun r hr => by
      rw [List.mem_singleton] at hr
      rw [hr]
      exact ⟨List.Perm.refl _, fun g _ => Or.inr rfl⟩)
    rfl rfl (fun _ _ _ => rfl)
    (fun _ _ _ a b ha hb => by
      have h1 : "1.2.3.4" = a := by injection ha
      have h2 : "1.2.3.4" = b := by injection hb
      rw [← h1, ← h2])

end RemoveDeadDomains
